import Mathlib

/-!
# Verification of the user_agent OS-detection core (operating_systems.go)

Shallow embedding of the Go file `operating_systems.go` of the
`user_agent` repository.  Go strings are modelled as Lean `String`
(handled through their underlying `List Char` so that every operation
is structurally recursive and computable), Go slices of strings as
`List String`, and the mutable `UserAgent` record as a Lean structure
passed and returned functionally.  Each Go string-library call
(`strings.SplitN`, `strings.Split`, `strings.HasPrefix`,
`strings.Contains`, `strings.Replace`, `strings.Trim`, `strings.Join`,
`strings.EqualFold`) is given its own embedding below, faithful to the
Go semantics on the inputs that occur in this file.
-/

set_option autoImplicit false

namespace UA

/-! ## Go string primitives -/

/-- `breakOn sep cs` splits `cs` at the first occurrence of the
character `sep`: it returns the part before the separator and, when a
separator was found, `some` of the part after it. -/
def breakOn (sep : Char) : List Char → (List Char × Option (List Char))
  | [] => ([], none)
  | c :: cs =>
    if c = sep then ([], some cs)
    else
      let r := breakOn sep cs
      (c :: r.1, r.2)

/-- Embedding of Go `strings.Split(s, sep)` for a one-character
separator, on the underlying character list.  Like Go, splitting the
empty string yields one empty part. -/
def goSplit (sep : Char) : List Char → List (List Char)
  | [] => [[]]
  | c :: cs =>
    if c = sep then [] :: goSplit sep cs
    else
      match goSplit sep cs with
      | [] => [[c]]
      | a :: as => (c :: a) :: as

/-- Embedding of Go `strings.SplitN(s, sep, 3)` for a one-character
separator: split at the first two separators, the third part keeps the
rest of the string verbatim. -/
def goSplitN3 (sep : Char) (cs : List Char) : List (List Char) :=
  match breakOn sep cs with
  | (a, none) => [a]
  | (a, some r) =>
    match breakOn sep r with
    | (b, none) => [a, b]
    | (b, some r2) => [a, b, r2]

/-- Embedding of Go `strings.HasPrefix` (on strings). -/
def goStartsWith (s pre : String) : Bool :=
  pre.data.isPrefixOf s.data

/-- Substring containment on character lists. -/
def listContainsSub (needle : List Char) : List Char → Bool
  | [] => needle.isEmpty
  | c :: cs => needle.isPrefixOf (c :: cs) || listContainsSub needle cs

/-- Embedding of Go `strings.Contains`. -/
def goContains (s sub : String) : Bool :=
  listContainsSub sub.data s.data

/-- Embedding of Go `strings.Replace(s, old, new, 1)` (first occurrence
only), on character lists. -/
def listReplace1 (old new : List Char) : List Char → List Char
  | [] => if old.isEmpty then new else []
  | c :: cs =>
    if old.isPrefixOf (c :: cs) then new ++ (c :: cs).drop old.length
    else c :: listReplace1 old new cs

/-- Embedding of Go `strings.Replace(s, old, new, 1)` on strings. -/
def goReplace1 (s old new : String) : String :=
  String.mk (listReplace1 old.data new.data s.data)

/-- Embedding of Go `strings.Trim(s, " ")`. -/
def goTrimSpace (s : String) : String :=
  String.mk (((s.data.dropWhile (· = ' ')).reverse.dropWhile (· = ' ')).reverse)

/-- Embedding of Go `strings.Join(parts, " ")`. -/
def goJoinSpace (parts : List String) : String :=
  String.mk (List.intercalate [' '] (parts.map String.data))

/-- Embedding of Go `strings.Split(s, sep)` for a one-character
separator, returning strings. -/
def goSplitStr (sep : Char) (s : String) : List String :=
  (goSplit sep s.data).map String.mk

/-- Embedding of Go `strings.Split(s, " ")` returning strings. -/
def goSplitSpace (s : String) : List String :=
  goSplitStr ' ' s

/-- Embedding of Go `strings.EqualFold` restricted to ASCII case
folding (the only characters compared in this file are ASCII). -/
def goEqualFold (s t : String) : Bool :=
  s.data.map Char.toLower = t.data.map Char.toLower

/-- Positional access into a comment list, returning `none` when the
index is past the end: the observation point for the out-of-bounds
safety property. -/
def idx : List String → Nat → Option String
  | [], _ => none
  | a :: _, 0 => some a
  | _ :: as, n + 1 => idx as n

/-- Total positional access with a default, used by the functional
versions of the heuristics at spots where the Go code has already
length-checked the index. -/
def idxD (l : List String) (i : Nat) : String :=
  (idx l i).getD ""

/-! ## Data model

Modelled from the spec: the `UserAgent` result record itself is declared
elsewhere in the repository (only `operating_systems.go` is in scope);
its fields (`platform`, `os`, `localization`, `mobile`, `model`,
`undecided`, and the embedded browser record with `Name`, `Version`,
`Engine`) are taken from the spec's data model and from how this file
reads and writes them. -/

/-- Modelled from the spec: the browser sub-record of `UserAgent` with
the fields this file uses (`Name`, `Version`, and the rendering-engine
tag `Engine` resolved by the external browser detector). -/
structure Browser where
  Name : String
  Version : String
  Engine : String
  deriving Repr, DecidableEq

/-- Modelled from the spec: the caller-owned result record mutated in
place by `detectOS` and queried by the accessors. -/
structure UserAgent where
  platform : String
  os : String
  localization : String
  mobile : Bool
  model : String
  undecided : Bool
  browser : Browser
  deriving Repr, DecidableEq

/-- The empty result record the caller starts from. -/
def emptyUA : UserAgent :=
  { platform := "", os := "", localization := "", mobile := false
    model := "", undecided := false
    browser := { Name := "", Version := "", Engine := "" } }

/-- Modelled from the spec: one top-level token group of a user-agent
string, as produced by the external tokenizer (Go struct `section`). -/
structure Section where
  name : String
  version : String
  comment : List String
  deriving Repr, DecidableEq

/-- `OSInfo` struct of the source: full information on the operating
system extracted from the user agent. -/
structure OSInfo where
  FullName : String
  Name : String
  Version : String
  deriving Repr, DecidableEq

/-! ## normalizeOS -/

/-- Embedding of Go `normalizeOS`: split into at most 3 space-separated
parts; strings of the exact shape `<X> NT <version>` with a known NT
version token are rewritten to the marketing name, everything else is
returned unchanged. -/
def normalizeOS (name : String) : String :=
  match goSplitN3 ' ' name.data with
  | [_, t, v] =>
    if t ≠ "NT".data then name
    else if v = "5.0".data then "Windows 2000"
    else if v = "5.01".data then "Windows 2000, Service Pack 1 (SP1)"
    else if v = "5.1".data then "Windows XP"
    else if v = "5.2".data then "Windows XP x64 Edition"
    else if v = "6.0".data then "Windows Vista"
    else if v = "6.1".data then "Windows 7"
    else if v = "6.2".data then "Windows 8"
    else if v = "6.3".data then "Windows 8.1"
    else if v = "10.0".data then "Windows 10"
    else name
  | _ => name

/-! ## Engine heuristics

Each heuristic is embedded twice: `f` is the direct functional
translation (every comment access happens under the same length guard
as in the Go code, through `idxD`), and `fC` is the checked variant in
which every positional access to a comment list goes through `idx` and
an out-of-bounds access aborts the whole computation with `none`.
`fC_eq` lemmas below prove the checked run never aborts, which is the
no-out-of-bounds property. -/

/-- Embedding of Go `getPlatform`: derive a coarse platform label from
the first comment token.  The list pattern match is the `len(comment) >
0` guard of the source. -/
def getPlatform : List String → String
  | [] => ""
  | c0 :: _ =>
    if c0 ≠ "compatible" then
      if goStartsWith c0 "Windows" then "Windows"
      else if goStartsWith c0 "Symbian" then "Symbian"
      else if goStartsWith c0 "webOS" then "webOS"
      else if c0 = "BB10" then "BlackBerry"
      else c0
    else ""

/-- The body of the `wv` scan loop of Go `webkit`: first comment token
equal to or containing `"wv"` marks mobile and renames the browser. -/
def wvScan (p : UserAgent) : List String → UserAgent
  | [] => p
  | c :: rest =>
    if c = "wv" || goContains c "wv" then
      { p with mobile := true
               browser := { p.browser with
                 Name := if goContains p.browser.Name "Chrome"
                         then "Chrome WebView" else "Android WebView" } }
    else wvScan p rest

/-- Embedding of Go `webkit`. -/
def webkit (p : UserAgent) (comment : List String) : UserAgent :=
  let p1 := if p.platform = "" then { p with platform := getPlatform comment } else p
  let p2 := if p1.os = "" ∧ comment.length > 1
            then { p1 with os := normalizeOS (idxD comment 1) } else p1
  wvScan p2 comment

/-- Checked embedding of Go `webkit`. -/
def webkitC (p : UserAgent) (comment : List String) : Option UserAgent :=
  let p1 := if p.platform = "" then { p with platform := getPlatform comment } else p
  let p2o : Option UserAgent :=
    if p1.os = "" ∧ comment.length > 1 then
      match idx comment 1 with
      | none => none
      | some c1 => some { p1 with os := normalizeOS c1 }
    else some p1
  match p2o with
  | none => none
  | some p2 => some (wvScan p2 comment)

/-- Embedding of Go `gecko`.  The simultaneous Go assignment
`p.platform, p.os = normalizeOS(comment[1]), p.platform` is rendered by
reading the old `p.platform` on the right-hand side. -/
def gecko (p : UserAgent) (comment : List String) : UserAgent :=
  if comment.length > 1 then
    let c1 := idxD comment 1
    let p1 :=
      if c1 = "U" || c1 = "arm_64" then
        if comment.length > 2 then { p with os := normalizeOS (idxD comment 2) }
        else { p with os := normalizeOS c1 }
      else
        if goContains p.platform "Android" then
          { p with mobile := true, platform := normalizeOS c1, os := p.platform }
        else if idxD comment 0 = "Mobile" || idxD comment 0 = "Tablet" then
          { p with mobile := true, os := "FirefoxOS" }
        else
          if p.os = "" then { p with os := normalizeOS c1 } else p
    if comment.length > 3 ∧ ¬ goStartsWith (idxD comment 3) "rv:" then
      { p1 with localization := idxD comment 3 }
    else p1
  else p

/-- Checked embedding of Go `gecko`. -/
def geckoC (p : UserAgent) (comment : List String) : Option UserAgent :=
  if comment.length > 1 then
    match idx comment 1 with
    | none => none
    | some c1 =>
      let p1o : Option UserAgent :=
        if c1 = "U" || c1 = "arm_64" then
          if comment.length > 2 then
            match idx comment 2 with
            | none => none
            | some c2 => some { p with os := normalizeOS c2 }
          else some { p with os := normalizeOS c1 }
        else
          if goContains p.platform "Android" then
            some { p with mobile := true, platform := normalizeOS c1, os := p.platform }
          else
            match idx comment 0 with
            | none => none
            | some c0 =>
              if c0 = "Mobile" || c0 = "Tablet" then
                some { p with mobile := true, os := "FirefoxOS" }
              else
                if p.os = "" then some { p with os := normalizeOS c1 } else some p
      match p1o with
      | none => none
      | some p1 =>
        if comment.length > 3 then
          match idx comment 3 with
          | none => none
          | some c3 =>
            if ¬ goStartsWith c3 "rv:" then some { p1 with localization := c3 }
            else some p1
        else some p1
  else some p

/-- Embedding of Go `trident`.  The early-returning `IEMobile` scan
loop is rendered with `List.any`, which also stops at the first match. -/
def trident (p : UserAgent) (comment : List String) : UserAgent :=
  let p1 := { p with platform := "Windows" }
  let p2 :=
    if p1.os = "" then
      if comment.length > 2 then { p1 with os := normalizeOS (idxD comment 2) }
      else { p1 with os := "Windows NT 4.0" }
    else p1
  if comment.any (fun v => goStartsWith v "IEMobile") then { p2 with mobile := true }
  else p2

/-- Checked embedding of Go `trident` (the scan loop ranges over the
list and performs no positional access). -/
def tridentC (p : UserAgent) (comment : List String) : Option UserAgent :=
  let p1 := { p with platform := "Windows" }
  let p2o : Option UserAgent :=
    if p1.os = "" then
      if comment.length > 2 then
        match idx comment 2 with
        | none => none
        | some c2 => some { p1 with os := normalizeOS c2 }
      else some { p1 with os := "Windows NT 4.0" }
    else some p1
  match p2o with
  | none => none
  | some p2 =>
    if comment.any (fun v => goStartsWith v "IEMobile") then some { p2 with mobile := true }
    else some p2

/-- Embedding of Go `opera`.  The Go code reads `comment[0]` with no
guard of its own (the dispatcher guarantees a non-empty list); on the
unreachable empty list this functional version is the identity. -/
def opera (p : UserAgent) (comment : List String) : UserAgent :=
  match comment with
  | [] => p
  | c0 :: _ =>
    let slen := comment.length
    if goStartsWith c0 "Windows" then
      let p1 := { p with platform := "Windows", os := normalizeOS c0 }
      if slen > 2 then
        if slen > 3 ∧ goStartsWith (idxD comment 2) "MRA" then
          { p1 with localization := idxD comment 3 }
        else
          { p1 with localization := idxD comment 2 }
      else p1
    else
      let p1 := if goStartsWith c0 "Android" then { p with mobile := true } else p
      let p2 := { p1 with platform := c0 }
      if slen > 1 then
        let p3 := { p2 with os := idxD comment 1 }
        if slen > 3 then { p3 with localization := idxD comment 3 } else p3
      else
        { p2 with os := c0 }

/-- Checked embedding of Go `opera`: the unguarded `comment[0]` access
aborts with `none` on an empty comment list. -/
def operaC (p : UserAgent) (comment : List String) : Option UserAgent :=
  match idx comment 0 with
  | none => none
  | some c0 =>
    let slen := comment.length
    if goStartsWith c0 "Windows" then
      let p1 := { p with platform := "Windows", os := normalizeOS c0 }
      if slen > 2 then
        if slen > 3 then
          match idx comment 2 with
          | none => none
          | some c2 =>
            if goStartsWith c2 "MRA" then
              match idx comment 3 with
              | none => none
              | some c3 => some { p1 with localization := c3 }
            else
              some { p1 with localization := c2 }
        else
          match idx comment 2 with
          | none => none
          | some c2 => some { p1 with localization := c2 }
      else some p1
    else
      let p1 := if goStartsWith c0 "Android" then { p with mobile := true } else p
      let p2 := { p1 with platform := c0 }
      if slen > 1 then
        match idx comment 1 with
        | none => none
        | some c1 =>
          let p3 := { p2 with os := c1 }
          if slen > 3 then
            match idx comment 3 with
            | none => none
            | some c3 => some { p3 with localization := c3 }
          else some p3
      else
        some { p2 with os := c0 }

/-- Embedding of Go `dalvik` (same convention as `opera` for the
unguarded `comment[0]`). -/
def dalvik (p : UserAgent) (comment : List String) : UserAgent :=
  match comment with
  | [] => p
  | c0 :: _ =>
    if goStartsWith c0 "Linux" then
      let p1 := { p with platform := c0 }
      let p2 := if comment.length > 2 then { p1 with os := idxD comment 2 } else p1
      { p2 with mobile := true }
    else p

/-- Checked embedding of Go `dalvik`. -/
def dalvikC (p : UserAgent) (comment : List String) : Option UserAgent :=
  match idx comment 0 with
  | none => none
  | some c0 =>
    if goStartsWith c0 "Linux" then
      let p1 := { p with platform := c0 }
      let p2o : Option UserAgent :=
        if comment.length > 2 then
          match idx comment 2 with
          | none => none
          | some c2 => some { p1 with os := c2 }
        else some p1
      match p2o with
      | none => none
      | some p2 => some { p2 with mobile := true }
    else some p

/-! ## Dispatcher -/

/-- The scan over all sections inside the `AppleWebKit` arm of Go
`detectOS`: the first section named (case-insensitively) `Chrome` or
`Version` overrides the browser name and version, and the loop breaks. -/
def chromeVersionScan (p : UserAgent) : List Section → UserAgent
  | [] => p
  | sec :: rest =>
    if goEqualFold sec.name "Chrome" then
      { p with browser := { p.browser with Name := "Chrome", Version := sec.version } }
    else if goEqualFold sec.name "Version" then
      { p with browser := { p.browser with Name := "Android WebView", Version := sec.version } }
    else chromeVersionScan p rest

/-- Embedding of Go `(p *UserAgent) detectOS(sections)`.  The Go
`switch p.browser.Engine` is rendered as the equivalent chain of
string comparisons with no default arm. -/
def detectOS (p : UserAgent) (sections : List Section) : UserAgent :=
  match sections with
  | [] => p
  | s :: _ =>
    if s.name = "Mozilla" then
      let p1 := { p with platform := getPlatform s.comment }
      let p2 := if p1.platform = "Windows" ∧ s.comment.length > 0
                then { p1 with os := normalizeOS (idxD s.comment 0) } else p1
      if p2.browser.Engine = "" then { p2 with undecided := true }
      else if p2.browser.Engine = "Gecko" then gecko p2 s.comment
      else if p2.browser.Engine = "AppleWebKit" then
        chromeVersionScan (webkit p2 s.comment) sections
      else if p2.browser.Engine = "Trident" then trident p2 s.comment
      else p2
    else if s.name = "Opera" then
      if s.comment.length > 0 then opera p s.comment else p
    else if s.name = "Dalvik" then
      if s.comment.length > 0 then dalvik p s.comment else p
    else if s.name = "okhttp" then
      { p with mobile := true
               browser := { p.browser with Name := "OkHttp", Version := s.version } }
    else
      { p with undecided := true }

/-- Checked embedding of Go `detectOS`: every positional access to a
comment list inside the dispatcher or a dispatched heuristic goes
through `idx`, and an out-of-bounds access aborts with `none`. -/
def detectOSC (p : UserAgent) (sections : List Section) : Option UserAgent :=
  match sections with
  | [] => some p
  | s :: _ =>
    if s.name = "Mozilla" then
      let p1 := { p with platform := getPlatform s.comment }
      let p2o : Option UserAgent :=
        if p1.platform = "Windows" ∧ s.comment.length > 0 then
          match idx s.comment 0 with
          | none => none
          | some c0 => some { p1 with os := normalizeOS c0 }
        else some p1
      match p2o with
      | none => none
      | some p2 =>
        if p2.browser.Engine = "" then some { p2 with undecided := true }
        else if p2.browser.Engine = "Gecko" then geckoC p2 s.comment
        else if p2.browser.Engine = "AppleWebKit" then
          match webkitC p2 s.comment with
          | none => none
          | some p3 => some (chromeVersionScan p3 sections)
        else if p2.browser.Engine = "Trident" then tridentC p2 s.comment
        else some p2
    else if s.name = "Opera" then
      if s.comment.length > 0 then operaC p s.comment else some p
    else if s.name = "Dalvik" then
      if s.comment.length > 0 then dalvikC p s.comment else some p
    else if s.name = "okhttp" then
      some { p with mobile := true
                    browser := { p.browser with Name := "OkHttp", Version := s.version } }
    else
      some { p with undecided := true }

/-! ## Accessors and the OS-info splitter -/

/-- Embedding of Go `Platform()`. -/
def UserAgent.Platform (p : UserAgent) : String := p.platform

/-- Embedding of Go `OS()`. -/
def UserAgent.OS (p : UserAgent) : String := p.os

/-- Embedding of Go `Localization()`. -/
def UserAgent.Localization (p : UserAgent) : String := p.localization

/-- Embedding of Go `Model()`. -/
def UserAgent.Model (p : UserAgent) : String := p.model

/-- Embedding of Go `osName`: split a pre-split OS full name into a
name and a version. -/
def osName (osSplit : List String) : String × String :=
  if osSplit.length = 1 then
    (osSplit.headD "", "")
  else
    let nameSplit0 := osSplit.take (osSplit.length - 1)
    let version := osSplit.getLastD ""
    let nameSplit :=
      if nameSplit0.length ≥ 2 ∧ nameSplit0.headD "" = "Intel" ∧ idxD nameSplit0 1 = "Mac"
      then nameSplit0.tail else nameSplit0
    let name := goJoinSpace nameSplit
    if goContains version "x86" || goContains version "i686" then
      (name, "")
    else if version = "X" ∧ name = "Mac OS" then
      (name ++ " " ++ version, "")
    else
      (name, version)

/-- Embedding of Go `(p *UserAgent) OSInfo()`. -/
def UserAgent.OSInfo (p : UserAgent) : OSInfo :=
  let os0 := goReplace1 p.os "like Mac OS X" ""
  let os1 := goReplace1 os0 "CPU" ""
  let os := goTrimSpace os1
  let osSplit0 := goSplitSpace os
  let osSplit := if os = "Windows XP x64 Edition"
                 then osSplit0.take (osSplit0.length - 2) else osSplit0
  let nv := osName osSplit
  let nv2 :=
    if goContains nv.1 "/" then
      let s := goSplitStr '/' nv.1
      (s.headD "", idxD s 1)
    else nv
  let version := String.mk (nv2.2.data.map (fun c => if c = '_' then '.' else c))
  { FullName := p.os, Name := nv2.1, Version := version }

/-! ## The checked run never goes out of bounds -/

theorem webkitC_eq (p : UserAgent) (comment : List String) :
    webkitC p comment = some (webkit p comment) := by
  match comment with
  | [] =>
    simp only [webkit, webkitC]
    simp [idx, idxD]
  | [a] =>
    simp only [webkit, webkitC]
    simp [idx, idxD]
  | a :: b :: t =>
    simp only [webkit, webkitC]
    simp [idx, idxD]
    split_ifs <;> first | rfl | simp

theorem geckoC_eq (p : UserAgent) (comment : List String) :
    geckoC p comment = some (gecko p comment) := by
  match comment with
  | [] =>
    simp only [gecko, geckoC]
    simp
  | [a] =>
    simp only [gecko, geckoC]
    simp
  | [a, b] =>
    simp only [gecko, geckoC]
    simp [idx, idxD]
    split_ifs <;> first | rfl | simp
  | [a, b, c] =>
    simp only [gecko, geckoC]
    simp [idx, idxD]
    split_ifs <;> first | rfl | simp
  | a :: b :: c :: d :: t =>
    simp only [gecko, geckoC]
    simp [idx, idxD]
    split_ifs <;> first | rfl | simp

theorem tridentC_eq (p : UserAgent) (comment : List String) :
    tridentC p comment = some (trident p comment) := by
  match comment with
  | [] =>
    simp only [trident, tridentC]
    simp
    split_ifs <;> first | rfl | simp
  | [a] =>
    simp only [trident, tridentC]
    simp [idx, idxD]
    split_ifs <;> first | rfl | simp
  | [a, b] =>
    simp only [trident, tridentC]
    simp [idx, idxD]
    split_ifs <;> first | rfl | simp
  | a :: b :: c :: t =>
    simp only [trident, tridentC]
    simp [idx, idxD]
    split_ifs <;> first | rfl | simp

theorem operaC_eq (p : UserAgent) (comment : List String) (h : comment ≠ []) :
    operaC p comment = some (opera p comment) := by
  match comment with
  | [] => exact absurd rfl h
  | [a] =>
    simp only [opera, operaC]
    simp [idx, idxD]
    split_ifs <;> first | rfl | simp
  | [a, b] =>
    simp only [opera, operaC]
    simp [idx, idxD]
    split_ifs <;> first | rfl | simp
  | [a, b, c] =>
    simp only [opera, operaC]
    simp [idx, idxD]
    split_ifs <;> first | rfl | simp
  | a :: b :: c :: d :: t =>
    simp only [opera, operaC]
    simp [idx, idxD]
    split_ifs <;> first | rfl | simp

theorem dalvikC_eq (p : UserAgent) (comment : List String) (h : comment ≠ []) :
    dalvikC p comment = some (dalvik p comment) := by
  match comment with
  | [] => exact absurd rfl h
  | [a] =>
    simp only [dalvik, dalvikC]
    simp [idx, idxD]
    split_ifs <;> first | rfl | simp
  | [a, b] =>
    simp only [dalvik, dalvikC]
    simp [idx, idxD]
    split_ifs <;> first | rfl | simp
  | a :: b :: c :: t =>
    simp only [dalvik, dalvikC]
    simp [idx, idxD]
    split_ifs <;> first | rfl | simp

theorem detectOSC_eq (p : UserAgent) (sections : List Section) :
    detectOSC p sections = some (detectOS p sections) := by
  match sections with
  | [] => rfl
  | s :: rest =>
    simp only [detectOS, detectOSC]
    by_cases hMoz : s.name = "Mozilla"
    · simp only [hMoz, if_true]
      cases hc : s.comment with
      | nil =>
        simp [idx, idxD]
        split_ifs <;>
          first
          | rfl
          | (simp [geckoC_eq, webkitC_eq, tridentC_eq, hc]; done)
          | (simp_all [geckoC_eq, webkitC_eq, tridentC_eq]; done)
      | cons c0 ct =>
        simp [idx, idxD]
        split_ifs <;>
          first
          | rfl
          | (simp [geckoC_eq, webkitC_eq, tridentC_eq, hc]; done)
          | (simp_all [geckoC_eq, webkitC_eq, tridentC_eq]; done)
    · simp only [hMoz, if_false]
      by_cases hOp : s.name = "Opera"
      · simp only [hOp, if_true]
        cases hc : s.comment with
        | nil => simp
        | cons c0 ct => simp [operaC_eq]
      · simp only [hOp, if_false]
        by_cases hDal : s.name = "Dalvik"
        · simp only [hDal, if_true]
          cases hc : s.comment with
          | nil => simp
          | cons c0 ct => simp [dalvikC_eq]
        · simp only [hDal, if_false]
          by_cases hOk : s.name = "okhttp" <;> simp [hOk]

/-! ## Helper lemmas -/

theorem wvScan_os (q : UserAgent) (l : List String) : (wvScan q l).os = q.os := by
  induction l with
  | nil => rfl
  | cons c t ih =>
    simp only [wvScan]
    split_ifs <;> simp [ih]

theorem wvScan_found (q : UserAgent) (l : List String)
    (h : l.any (fun c => c = "wv" || goContains c "wv") = true) :
    (wvScan q l).mobile = true ∧
    (wvScan q l).browser.Name =
      (if goContains q.browser.Name "Chrome" = true
       then "Chrome WebView" else "Android WebView") := by
  induction l with
  | nil => simp at h
  | cons c t ih =>
    by_cases hc : (c = "wv" || goContains c "wv") = true
    · simp [wvScan, hc]
    · simp only [List.any_cons, hc] at h
      simp only [wvScan, hc, if_false]
      simp only [Bool.false_or] at h
      exact ih h

/-- The predicate of the Chrome/Version section scan of `detectOS`. -/
def isChromeOrVersion (sec : Section) : Bool :=
  goEqualFold sec.name "Chrome" || goEqualFold sec.name "Version"

theorem chromeVersionScan_found (q : UserAgent) (l : List Section) (sec : Section)
    (h : l.find? isChromeOrVersion = some sec) :
    (chromeVersionScan q l).browser.Name =
      (if goEqualFold sec.name "Chrome" = true then "Chrome" else "Android WebView") ∧
    (chromeVersionScan q l).browser.Version = sec.version := by
  induction l with
  | nil => simp at h
  | cons s t ih =>
    by_cases hs : isChromeOrVersion s = true
    · rw [List.find?_cons_of_pos _ hs] at h
      injection h with h2
      subst h2
      by_cases hChr : goEqualFold s.name "Chrome" = true
      · simp [chromeVersionScan, hChr]
      · have hVer : goEqualFold s.name "Version" = true := by
          simp only [isChromeOrVersion, Bool.or_eq_true] at hs
          tauto
        simp [chromeVersionScan, hChr, hVer]
    · rw [List.find?_cons_of_neg _ hs] at h
      have hChr : ¬ goEqualFold s.name "Chrome" = true := by
        simp only [isChromeOrVersion, Bool.or_eq_true] at hs
        tauto
      have hVer : ¬ goEqualFold s.name "Version" = true := by
        simp only [isChromeOrVersion, Bool.or_eq_true] at hs
        tauto
      simp only [chromeVersionScan, hChr, hVer, if_false]
      exact ih h

/-! ## Claims -/

/-- C1: for every input section list and every starting record, the
checked run of `detectOS` — in which each positional access to a
comment list, in the dispatcher and in every heuristic it dispatches to
(`webkit`, `gecko`, `trident`, `opera`, `dalvik`, `getPlatform`), goes
through `idx` and aborts with `none` on an index past the end — never
aborts: it returns exactly the result of the functional embedding, so
no call ever indexes past the end of a comment list. -/
theorem detectOS_no_out_of_bounds (p : UserAgent) (sections : List Section) :
    detectOSC p sections = some (detectOS p sections) :=
  detectOSC_eq p sections

/-- C7: on the raw os field `"CPU iPhone OS 10_3_1 like Mac OS X"`,
`OSInfo` removes `"like Mac OS X"` and `"CPU"`, trims spaces, splits on
spaces and dots the underscored version, returning Name `"iPhone OS"`,
Version `"10.3.1"` and the untouched raw string as FullName. -/
theorem osinfo_iphone_scenario :
    ({ emptyUA with os := "CPU iPhone OS 10_3_1 like Mac OS X" } : UserAgent).OSInfo =
      { FullName := "CPU iPhone OS 10_3_1 like Mac OS X"
        Name := "iPhone OS", Version := "10.3.1" } := by
  decide

/-- C8: on the raw os field `"Windows XP x64 Edition"`, `OSInfo` drops
the trailing two tokens before the generic name/version split and
returns Name `"Windows"`, Version `"XP"`, FullName the raw string. -/
theorem osinfo_xp_x64_scenario :
    ({ emptyUA with os := "Windows XP x64 Edition" } : UserAgent).OSInfo =
      { FullName := "Windows XP x64 Edition", Name := "Windows", Version := "XP" } := by
  decide

/-- Concrete record with a pre-set non-empty os, used by witnesses. -/
def uaOS7 : UserAgent := { emptyUA with os := "Windows 7" }

/-- Concrete record whose browser is Chrome on WebKit, used by witnesses. -/
def uaChrome : UserAgent :=
  { emptyUA with browser := { Name := "Chrome", Version := "", Engine := "AppleWebKit" } }

/-- Concrete record whose platform is Android, used by witnesses. -/
def uaAndroidPlat : UserAgent := { emptyUA with platform := "Android" }

/-- Concrete record whose engine tag is Gecko, used by counterexamples. -/
def uaGecko : UserAgent :=
  { emptyUA with browser := { Name := "Firefox", Version := "", Engine := "Gecko" } }

/-- C2 counterexample: the `U`/`arm_64` branch of `gecko` writes `os`
without checking that it is still empty, so an os value set earlier in
the same `detectOS` invocation (here `"Windows 7"`, pre-set by the
Mozilla/Windows branch from the same comment list) is overwritten by a
later heuristic write (to `"Linux"`). -/
theorem os_write_once_counterexample :
    (gecko { uaGecko with platform := "Windows", os := "Windows 7" }
        ["Windows NT 6.1", "U", "Linux"]).os = "Linux" ∧
    (detectOS uaGecko
        [{ name := "Mozilla", version := "5.0"
           comment := ["Windows NT 6.1", "U", "Linux"] }]).os = "Linux" ∧
    normalizeOS "Windows NT 6.1" = "Windows 7" ∧
    ("Windows 7" : String) ≠ "" ∧ ("Linux" : String) ≠ "Windows 7" := by
  decide

/-- C2 amended: the heuristics that do guard their os write with an
`os == ""` check never overwrite a non-empty os: `webkit` and `trident`
always preserve a non-empty os, and `gecko` preserves it on its default
branch (second token not `U`/`arm_64`, platform not containing
`Android`, first token not `Mobile`/`Tablet`); the remaining `gecko`
branches and `opera` write os unconditionally. -/
theorem os_write_once_amended (p : UserAgent) (comment : List String)
    (h : p.os ≠ "") :
    (webkit p comment).os = p.os ∧
    (trident p comment).os = p.os ∧
    ((idxD comment 1 ≠ "U" ∧ idxD comment 1 ≠ "arm_64" ∧
      goContains p.platform "Android" = false ∧
      idxD comment 0 ≠ "Mobile" ∧ idxD comment 0 ≠ "Tablet") →
      (gecko p comment).os = p.os) := by
  refine ⟨?_, ?_, ?_⟩
  · simp only [webkit]
    rw [wvScan_os]
    split_ifs <;> simp_all
  · simp only [trident]
    split_ifs <;> simp_all
  · intro hc
    obtain ⟨hU, hArm, hAnd, hMob, hTab⟩ := hc
    simp only [gecko]
    split_ifs <;> simp_all

theorem os_write_once_amended_witness :
    uaOS7.os ≠ "" ∧
    (webkit uaOS7 ["Windows NT 10.0", "Win64", "x64"]).os = uaOS7.os ∧
    (gecko uaOS7 ["Windows NT 10.0", "Win64", "x64"]).os = uaOS7.os :=
  ⟨by decide,
   (os_write_once_amended uaOS7 ["Windows NT 10.0", "Win64", "x64"] (by decide)).1,
   (os_write_once_amended uaOS7 ["Windows NT 10.0", "Win64", "x64"] (by decide)).2.2
     (by refine ⟨?_, ?_, ?_, ?_, ?_⟩ <;> decide)⟩

/-- C4: for a comment list of length at least 2 entering `gecko`: when
the second token is `U` or `arm_64`, os is set to the normalization of
the third token when it exists and of the second token otherwise;
otherwise, when the current platform contains `Android`, mobile is set,
the normalized second token becomes the platform and the previous
platform value becomes os. -/
theorem gecko_u_and_android_branches (p : UserAgent) (c0 c1 : String)
    (rest : List String) :
    ((c1 = "U" ∨ c1 = "arm_64") →
      (gecko p (c0 :: c1 :: rest)).os =
        normalizeOS (match rest with | [] => c1 | c2 :: _ => c2)) ∧
    (c1 ≠ "U" → c1 ≠ "arm_64" → goContains p.platform "Android" = true →
      (gecko p (c0 :: c1 :: rest)).mobile = true ∧
      (gecko p (c0 :: c1 :: rest)).platform = normalizeOS c1 ∧
      (gecko p (c0 :: c1 :: rest)).os = p.platform) := by
  constructor
  · intro hU
    match rest with
    | [] =>
      simp only [gecko, idxD, idx]
      split_ifs <;> simp_all
    | [r2] =>
      simp only [gecko, idxD, idx]
      split_ifs <;> simp_all
    | r2 :: r3 :: rt =>
      simp only [gecko, idxD, idx]
      split_ifs <;> simp_all
  · intro hU hArm hAnd
    match rest with
    | [] =>
      simp only [gecko, idxD, idx]
      split_ifs <;> simp_all
    | [r2] =>
      simp only [gecko, idxD, idx]
      split_ifs <;> simp_all
    | r2 :: r3 :: rt =>
      simp only [gecko, idxD, idx]
      split_ifs <;> simp_all

theorem gecko_u_and_android_branches_witness :
    (gecko emptyUA ["X11", "U", "Linux x86_64"]).os = normalizeOS "Linux x86_64" ∧
    ((gecko uaAndroidPlat ["Android", "Mobile", "rv:99.0"]).mobile = true ∧
     (gecko uaAndroidPlat ["Android", "Mobile", "rv:99.0"]).platform = normalizeOS "Mobile" ∧
     (gecko uaAndroidPlat ["Android", "Mobile", "rv:99.0"]).os = uaAndroidPlat.platform) :=
  ⟨(gecko_u_and_android_branches emptyUA "X11" "U" ["Linux x86_64"]).1 (Or.inl rfl),
   (gecko_u_and_android_branches uaAndroidPlat "Android" "Mobile" ["rv:99.0"]).2
     (by decide) (by decide) (by decide)⟩

/-- C5: `trident` unconditionally sets platform to `Windows`; when os
is unset it sets os to the normalized third token when at least three
tokens exist and to the literal `Windows NT 4.0` otherwise; the final
mobile flag is the previous one or-ed with the presence of a token with
the `IEMobile` prefix (first match stops the scan), so starting from
mobile unset, mobile ends true iff such a token exists. -/
theorem trident_claim (p : UserAgent) (comment : List String) :
    (trident p comment).platform = "Windows" ∧
    (p.os = "" →
      (trident p comment).os =
        match comment with
        | _ :: _ :: c2 :: _ => normalizeOS c2
        | _ => "Windows NT 4.0") ∧
    (trident p comment).mobile =
      (p.mobile || comment.any fun v => goStartsWith v "IEMobile") ∧
    (p.mobile = false →
      ((trident p comment).mobile = true ↔
        (comment.any fun v => goStartsWith v "IEMobile") = true)) := by
  refine ⟨?_, ?_, ?_, ?_⟩
  · simp only [trident]
    split_ifs <;> rfl
  · intro h
    match comment with
    | [] => simp [trident, h]
    | [a] =>
      simp [trident, h, idxD, idx]
      split_ifs <;> rfl
    | [a, b] =>
      simp [trident, h, idxD, idx]
      split_ifs <;> rfl
    | a :: b :: c :: t =>
      simp only [trident, h, idxD, idx]
      split_ifs <;> simp_all
  · simp only [trident]
    split_ifs <;> simp_all
  · intro h
    simp only [trident]
    split_ifs <;> simp_all

theorem trident_claim_witness :
    (trident emptyUA ["compatible", "MSIE 7.0"]).platform = "Windows" ∧
    (trident emptyUA ["compatible", "MSIE 7.0"]).os = "Windows NT 4.0" ∧
    ((trident emptyUA ["compatible", "MSIE 10.0", "Windows NT 6.1", "IEMobile 10.0"]).mobile = true ↔
      (["compatible", "MSIE 10.0", "Windows NT 6.1", "IEMobile 10.0"].any
        fun v => goStartsWith v "IEMobile") = true) :=
  ⟨(trident_claim emptyUA ["compatible", "MSIE 7.0"]).1,
   (trident_claim emptyUA ["compatible", "MSIE 7.0"]).2.1 (by decide),
   (trident_claim emptyUA
     ["compatible", "MSIE 10.0", "Windows NT 6.1", "IEMobile 10.0"]).2.2.2 (by decide)⟩

/-- C6: when the comment list contains a token equal to `wv` or
containing `wv`, `webkit` marks mobile and renames the browser to
`Chrome WebView` when the current browser name contains `Chrome` and to
`Android WebView` otherwise (first matching token stops the scan); in
particular browser name `Chrome` yields `Chrome WebView` and mobile
true. -/
theorem webkit_wv_claim (p : UserAgent) (comment : List String)
    (h : (comment.any fun c => c = "wv" || goContains c "wv") = true) :
    (webkit p comment).mobile = true ∧
    (webkit p comment).browser.Name =
      (if goContains p.browser.Name "Chrome" = true
       then "Chrome WebView" else "Android WebView") ∧
    (p.browser.Name = "Chrome" →
      (webkit p comment).browser.Name = "Chrome WebView") := by
  obtain ⟨q, hq, hqb⟩ :
      ∃ q, webkit p comment = wvScan q comment ∧ q.browser = p.browser := by
    refine ⟨_, rfl, ?_⟩
    split_ifs <;> rfl
  rw [hq]
  have main := wvScan_found q comment h
  rw [hqb] at main
  refine ⟨main.1, main.2, fun hn => ?_⟩
  rw [main.2, hn]
  decide

theorem webkit_wv_claim_witness :
    (webkit uaChrome ["Linux", "Android 12", "wv"]).mobile = true ∧
    (webkit uaChrome ["Linux", "Android 12", "wv"]).browser.Name = "Chrome WebView" :=
  ⟨(webkit_wv_claim uaChrome ["Linux", "Android 12", "wv"] (by decide)).1,
   (webkit_wv_claim uaChrome ["Linux", "Android 12", "wv"] (by decide)).2.2 rfl⟩

/-- C9: under a first section named `Mozilla` with engine tag
`AppleWebKit`, after `webkit` runs, the first section in order whose
name equals `Chrome` or `Version` case-insensitively sets the browser
name to `Chrome` or `Android WebView` respectively and the browser
version to that section version — for every starting record, hence also
overwriting any `Chrome WebView`/`Android WebView` name the wv-token
detection inside `webkit` had just set. -/
theorem webkit_chrome_version_override (p : UserAgent) (s0 : Section)
    (rest : List Section) (sec : Section)
    (hname : s0.name = "Mozilla") (heng : p.browser.Engine = "AppleWebKit")
    (hfind : (s0 :: rest).find? isChromeOrVersion = some sec) :
    (detectOS p (s0 :: rest)).browser.Name =
      (if goEqualFold sec.name "Chrome" = true then "Chrome" else "Android WebView") ∧
    (detectOS p (s0 :: rest)).browser.Version = sec.version := by
  obtain ⟨q, hq⟩ : ∃ q, detectOS p (s0 :: rest) = chromeVersionScan q (s0 :: rest) := by
    simp only [detectOS, hname, if_true]
    split_ifs <;> first | exact ⟨_, rfl⟩ | simp_all
  rw [hq]
  exact chromeVersionScan_found q (s0 :: rest) sec hfind

theorem webkit_chrome_version_override_witness :
    (detectOS uaChrome
      [{ name := "Mozilla", version := "5.0", comment := ["Linux", "Android 12", "wv"] },
       { name := "Chrome", version := "91.0.4472.114", comment := [] }]).browser.Name = "Chrome" ∧
    (detectOS uaChrome
      [{ name := "Mozilla", version := "5.0", comment := ["Linux", "Android 12", "wv"] },
       { name := "Chrome", version := "91.0.4472.114", comment := [] }]).browser.Version =
      "91.0.4472.114" :=
  webkit_chrome_version_override uaChrome
    { name := "Mozilla", version := "5.0", comment := ["Linux", "Android 12", "wv"] }
    [{ name := "Chrome", version := "91.0.4472.114", comment := [] }]
    { name := "Chrome", version := "91.0.4472.114", comment := [] }
    rfl rfl (by decide)

/-- C10: with a first section named `Mozilla` but an engine tag other
than the four recognized ones, `detectOS` runs no engine heuristic and
returns the record unchanged except for the platform (and the os when
that platform is `Windows` and a comment token exists) filled from the
Mozilla comment — in particular `undecided` keeps its value, so it
stays false; whereas an unrecognized first-section name sets
`undecided` to true. -/
theorem dispatch_unknown_engine_and_name :
    (∀ (p : UserAgent) (s0 : Section) (rest : List Section),
      s0.name = "Mozilla" →
      p.browser.Engine ≠ "" → p.browser.Engine ≠ "Gecko" →
      p.browser.Engine ≠ "AppleWebKit" → p.browser.Engine ≠ "Trident" →
      detectOS p (s0 :: rest) =
        { p with
          platform := getPlatform s0.comment
          os := if getPlatform s0.comment = "Windows" ∧ s0.comment.length > 0
                then normalizeOS (idxD s0.comment 0) else p.os }) ∧
    (∀ (p : UserAgent) (s0 : Section) (rest : List Section),
      s0.name ≠ "Mozilla" → s0.name ≠ "Opera" → s0.name ≠ "Dalvik" →
      s0.name ≠ "okhttp" →
      (detectOS p (s0 :: rest)).undecided = true) := by
  constructor
  · intro p s0 rest hname h0 hG hW hT
    simp only [detectOS, hname, if_true]
    split_ifs <;> simp_all
  · intro p s0 rest hM hO hD hK
    simp only [detectOS, hM, hO, hD, hK, if_false]

/-- Concrete record whose engine tag is the unrecognized `Presto`. -/
def uaPresto : UserAgent :=
  { emptyUA with browser := { Name := "Opera", Version := "", Engine := "Presto" } }

theorem dispatch_unknown_engine_and_name_witness :
    detectOS uaPresto [{ name := "Mozilla", version := "5.0", comment := ["Windows NT 6.1"] }] =
      { uaPresto with platform := "Windows", os := "Windows 7" } ∧
    (detectOS emptyUA [{ name := "curl", version := "8.0", comment := [] }]).undecided = true :=
  ⟨by
    have h := dispatch_unknown_engine_and_name.1 uaPresto
      { name := "Mozilla", version := "5.0", comment := ["Windows NT 6.1"] } []
      rfl (by decide) (by decide) (by decide) (by decide)
    rw [h]
    decide,
   dispatch_unknown_engine_and_name.2 emptyUA
     { name := "curl", version := "8.0", comment := [] } []
     (by decide) (by decide) (by decide) (by decide)⟩

/-! ## C3: normalizeOS against the spec table -/

/-- Modelled from the spec (amended claim C3): `normalizeOS` as the
spec words it — a pure rewrite of inputs that consist of exactly three
space-separated words `<X> NT <version>`, mapping the version token per
the table and passing every other shape or unknown token through
unchanged.  Uses the full space split (exact three-part shape), not the
source's `SplitN` with limit 3. -/
def normalizeOSSpec (name : String) : String :=
  match goSplit ' ' name.data with
  | [_, t, v] =>
    if String.mk t ≠ "NT" then name
    else if String.mk v = "5.0" then "Windows 2000"
    else if String.mk v = "5.01" then "Windows 2000, Service Pack 1 (SP1)"
    else if String.mk v = "5.1" then "Windows XP"
    else if String.mk v = "5.2" then "Windows XP x64 Edition"
    else if String.mk v = "6.0" then "Windows Vista"
    else if String.mk v = "6.1" then "Windows 7"
    else if String.mk v = "6.2" then "Windows 8"
    else if String.mk v = "6.3" then "Windows 8.1"
    else if String.mk v = "10.0" then "Windows 10"
    else name
  | _ => name

theorem goSplit_ne_nil (sep : Char) (cs : List Char) : goSplit sep cs ≠ [] := by
  induction cs with
  | nil => simp [goSplit]
  | cons c t ih =>
    simp only [goSplit]
    split_ifs
    · simp
    · cases h : goSplit sep t with
      | nil => exact absurd h ih
      | cons a as => simp

theorem breakOn_none_eq (sep : Char) (cs a : List Char)
    (h : breakOn sep cs = (a, none)) : a = cs := by
  induction cs generalizing a with
  | nil =>
    simp only [breakOn, Prod.mk.injEq] at h
    exact h.1.symm
  | cons c t ih =>
    rcases hbr : breakOn sep t with ⟨a1, o1⟩
    simp only [breakOn, hbr] at h
    split_ifs at h with hc
    · simp at h
    · simp only [Prod.mk.injEq] at h
      obtain ⟨h1, h2⟩ := h
      subst h2
      rw [← h1, ih a1 hbr]

theorem breakOn_some_mem (sep : Char) (cs a r : List Char)
    (h : breakOn sep cs = (a, some r)) : sep ∈ cs := by
  induction cs generalizing a r with
  | nil => simp [breakOn] at h
  | cons c t ih =>
    rcases hbr : breakOn sep t with ⟨a1, o1⟩
    simp only [breakOn, hbr] at h
    split_ifs at h with hc
    · subst hc
      exact List.mem_cons_self c t
    · simp only [Prod.mk.injEq] at h
      obtain ⟨h1, h2⟩ := h
      subst h2
      exact List.mem_cons_of_mem c (ih a1 r hbr)

theorem goSplit_breakOn (sep : Char) (cs : List Char) :
    goSplit sep cs =
      match breakOn sep cs with
      | (a, none) => [a]
      | (a, some r) => a :: goSplit sep r := by
  induction cs with
  | nil => rfl
  | cons c t ih =>
    rcases hbr : breakOn sep t with ⟨a1, o1⟩
    rw [hbr] at ih
    simp only [goSplit, breakOn, hbr]
    cases o1 with
    | none =>
      have ih2 : goSplit sep t = [a1] := ih
      split_ifs with hc
      · rfl
      · rw [ih2]
    | some r =>
      have ih2 : goSplit sep t = a1 :: goSplit sep r := ih
      split_ifs with hc
      · rfl
      · rw [ih2]

theorem mk_eq_data (l : List Char) (s : String) :
    (String.mk l = s) ↔ l = s.data := by
  constructor
  · intro h
    exact congrArg String.data h
  · intro h
    cases s with
    | mk d => exact congrArg String.mk h

/-- C3 counterexample: `normalizeOS` maps the NT version token `5.01`
to `"Windows 2000, Service Pack 1 (SP1)"`, not to `"Windows 2000 SP1"`
as the claim's table states. -/
theorem normalizeOS_501_counterexample :
    normalizeOS "Windows NT 5.01" = "Windows 2000, Service Pack 1 (SP1)" ∧
    normalizeOS "Windows NT 5.01" ≠ "Windows 2000 SP1" := by
  decide

theorem normalizeOS_eq_spec (s : String) : normalizeOS s = normalizeOSSpec s := by
  unfold normalizeOS normalizeOSSpec goSplitN3
  rcases h1 : breakOn ' ' s.data with ⟨a, o1⟩
  rw [goSplit_breakOn ' ' s.data, h1]
  cases o1 with
  | none => rfl
  | some r =>
    dsimp only
    rcases h2 : breakOn ' ' r with ⟨b, o2⟩
    rw [goSplit_breakOn ' ' r, h2]
    cases o2 with
    | none => rfl
    | some r2 =>
      dsimp only
      rcases h3 : breakOn ' ' r2 with ⟨c2, o3⟩
      rw [goSplit_breakOn ' ' r2, h3]
      cases o3 with
      | none =>
        have hc2 : c2 = r2 := breakOn_none_eq ' ' r2 c2 h3
        subst hc2
        dsimp only
        simp only [mk_eq_data, ne_eq]
      | some r3 =>
        dsimp only
        have hr2 : ' ' ∈ r2 := breakOn_some_mem ' ' r2 c2 r3 h3
        have hne : ∀ (k : List Char), ' ' ∉ k → ¬ r2 = k :=
          fun k hk he => hk (he ▸ hr2)
        obtain ⟨x, xs, hx⟩ : ∃ x xs, goSplit ' ' r3 = x :: xs := by
          cases hgs : goSplit ' ' r3 with
          | nil => exact absurd hgs (goSplit_ne_nil ' ' r3)
          | cons x xs => exact ⟨x, xs, rfl⟩
        rw [hx]
        dsimp only
        by_cases hb : b = "NT".data
        · rw [if_neg (by simp [hb]),
            if_neg (hne _ (by decide)), if_neg (hne _ (by decide)),
            if_neg (hne _ (by decide)), if_neg (hne _ (by decide)),
            if_neg (hne _ (by decide)), if_neg (hne _ (by decide)),
            if_neg (hne _ (by decide)), if_neg (hne _ (by decide)),
            if_neg (hne _ (by decide))]
        · rw [if_pos hb]

/-- C3 amended: `normalizeOS` is a pure function rewriting exactly the
inputs of the three-word shape `<X> NT <version>` per the table — with
`5.01` mapped to `"Windows 2000, Service Pack 1 (SP1)"` — and returning
every other shape or unknown version token unchanged. -/
theorem normalizeOS_claim :
    (∀ s, normalizeOS s = normalizeOSSpec s) ∧
    normalizeOS "Windows NT 5.0" = "Windows 2000" ∧
    normalizeOS "Windows NT 5.01" = "Windows 2000, Service Pack 1 (SP1)" ∧
    normalizeOS "Windows NT 5.1" = "Windows XP" ∧
    normalizeOS "Windows NT 5.2" = "Windows XP x64 Edition" ∧
    normalizeOS "Windows NT 6.0" = "Windows Vista" ∧
    normalizeOS "Windows NT 6.1" = "Windows 7" ∧
    normalizeOS "Windows NT 6.2" = "Windows 8" ∧
    normalizeOS "Windows NT 6.3" = "Windows 8.1" ∧
    normalizeOS "Windows NT 10.0" = "Windows 10" ∧
    normalizeOS "Windows NT 99.9" = "Windows NT 99.9" ∧
    normalizeOS "Windows 98" = "Windows 98" ∧
    normalizeOS "Mac OS X" = "Mac OS X" :=
  ⟨normalizeOS_eq_spec, by decide, by decide, by decide, by decide, by decide,
   by decide, by decide, by decide, by decide, by decide, by decide, by decide⟩

end UA
